import Mathlib

/-!
Verification of the staging-transaction core of `cardano-cli`
(`src/transaction/core/staging_transaction.rs`).

The orchestrator (`StagingTransaction`), its journal header handling, the
edit path (`append`), replay (`read_from_file`), the derived loop
(`remove_outputs_for`) and the snapshot import are translated directly from
the Rust source.  The pure transaction state machine
(`Transaction::update_with`, file `transaction.rs`) and the operation byte
codec (`operation.rs`) are not part of the provided source tree; they are
modelled from the specification (transition table of section 4.3, codec
contract of section 4.2).

Rust `&mut self` methods that can fail are embedded as functions returning
the pair of the post-call state and a result value, so that a mutation that
happened before an early `?` return is kept, exactly as in the source.
Machine integers are `Nat` (the protocol magic is reduced modulo `2 ^ 32`
where the 4-byte header encoding matters).  The journal substrate
(`storage_units::append`, an external collaborator per the specification)
is a list of byte records together with a failure-injection flag that makes
`append_bytes` report an I/O error, so that the behaviour of the edit path
on a failed durable append can be stated.
-/

namespace Staging

/-- Spendable previous output reference (`TxoPointer`); opaque, comparable. -/
abbrev TxoPointer := Nat

/-- Address type (`ExtendedAddr`); opaque, comparable. -/
abbrev ExtendedAddr := Nat

/-- Witness type (`TxInWitness`); opaque blob. -/
abbrev TxInWitness := Nat

/-- Transaction input: keyed by its outpoint `ptr`. -/
structure Input where
  ptr : TxoPointer
  value : Nat
deriving DecidableEq, Repr

/-- Transaction output: an address and a value; duplicates permitted. -/
structure Output where
  address : ExtendedAddr
  value : Nat
deriving DecidableEq, Repr

/-- Change entry: keyed by its address. -/
structure Change where
  address : ExtendedAddr
  value : Nat
deriving DecidableEq, Repr

/-- The eight-variant operation vocabulary of the staging journal. -/
inductive Operation where
  | AddInput (input : Input)
  | RemoveInput (ptr : TxoPointer)
  | AddOutput (output : Output)
  | RemoveOutput (index : Nat)
  | AddChange (change : Change)
  | RemoveChange (address : ExtendedAddr)
  | Finalize
  | Signature (witness : TxInWitness)
deriving DecidableEq, Repr

/-- Modelled from the spec: `operation.rs` is not under the provided
source tree.  Each variant encodes to a discriminant tag followed by the
variant payload (section 4.2), self-delimiting per record. -/
def Operation.serialize : Operation → List Nat
  | .AddInput i => [0, i.ptr, i.value]
  | .RemoveInput p => [1, p]
  | .AddOutput o => [2, o.address, o.value]
  | .RemoveOutput ix => [3, ix]
  | .AddChange c => [4, c.address, c.value]
  | .RemoveChange a => [5, a]
  | .Finalize => [6]
  | .Signature w => [7, w]

/-- Error of the operation decoder (`ParsingOperationError`). -/
inductive ParsingOperationError where
  | unknownOrMalformed
deriving DecidableEq, Repr

/-- Modelled from the spec: `operation.rs` is not under the provided
source tree.  Decoding rejects unknown discriminants and malformed
payloads and is the inverse of `Operation.serialize` (round-trip law of
section 4.2). -/
def Operation.deserialize : List Nat → Except ParsingOperationError Operation
  | [0, a, b] => .ok (.AddInput ⟨a, b⟩)
  | [1, p] => .ok (.RemoveInput p)
  | [2, a, v] => .ok (.AddOutput ⟨a, v⟩)
  | [3, ix] => .ok (.RemoveOutput ix)
  | [4, a, v] => .ok (.AddChange ⟨a, v⟩)
  | [5, a] => .ok (.RemoveChange a)
  | [6] => .ok .Finalize
  | [7, w] => .ok (.Signature w)
  | _ => .error .unknownOrMalformed

/-- Validation errors of the transaction state machine (`transaction::Error`). -/
inductive TransactionError where
  | doubleSpend
  | notFound
  | indexOutOfRange
  | alreadyFinalized
  | finalizedImmutable
deriving DecidableEq, Repr

/-- The derived transaction state: inputs (unique by outpoint), outputs
(ordered, duplicates permitted), change (unique by address), the finalized
flag and the signatures. -/
structure Transaction where
  inputs : List Input
  outputs : List Output
  changes : List Change
  finalized : Bool
  witnesses : List TxInWitness
deriving DecidableEq, Repr

/-- `Transaction::new`: the empty transaction. -/
def Transaction.new : Transaction :=
  { inputs := [], outputs := [], changes := [], finalized := false, witnesses := [] }

/-- Modelled from the spec: `transaction.rs` (`Transaction::update_with`)
is not under the provided source tree.  Pure transition function of the
transition table in section 4.3: after `Finalize`, structural edits are
rejected and only `Signature` is accepted; `AddInput` rejects a present
outpoint; the removals require their target; `RemoveOutput` shifts the
tail down; `Finalize` is not idempotent. -/
def Transaction.update_with (tx : Transaction) (op : Operation) :
    Except TransactionError Transaction :=
  match op with
  | .AddInput i =>
    if tx.finalized then .error .finalizedImmutable
    else if tx.inputs.any (fun j => j.ptr == i.ptr) then .error .doubleSpend
    else .ok { tx with inputs := tx.inputs ++ [i] }
  | .RemoveInput p =>
    if tx.finalized then .error .finalizedImmutable
    else if tx.inputs.any (fun j => j.ptr == p) then
      .ok { tx with inputs := tx.inputs.filter (fun j => j.ptr != p) }
    else .error .notFound
  | .AddOutput o =>
    if tx.finalized then .error .finalizedImmutable
    else .ok { tx with outputs := tx.outputs ++ [o] }
  | .RemoveOutput ix =>
    if tx.finalized then .error .finalizedImmutable
    else if ix < tx.outputs.length then .ok { tx with outputs := tx.outputs.eraseIdx ix }
    else .error .indexOutOfRange
  | .AddChange c =>
    if tx.finalized then .error .finalizedImmutable
    else .ok { tx with changes := (tx.changes.filter (fun d => d.address != c.address)) ++ [c] }
  | .RemoveChange a =>
    if tx.finalized then .error .finalizedImmutable
    else if tx.changes.any (fun d => d.address == a) then
      .ok { tx with changes := tx.changes.filter (fun d => d.address != a) }
    else .error .notFound
  | .Finalize =>
    if tx.finalized then .error .alreadyFinalized
    else .ok { tx with finalized := true }
  | .Signature w => .ok { tx with witnesses := tx.witnesses ++ [w] }

/-- Replay of a list of operations from a state, stopping at the first
validation error; the pure counterpart of the journal replay loop. -/
def Transaction.applyOps (tx : Transaction) : List Operation → Except TransactionError Transaction
  | [] => .ok tx
  | op :: ops =>
    match tx.update_with op with
    | .error e => .error e
    | .ok tx' => tx'.applyOps ops

/-- Journal substrate failures (`append::Error`): I/O error or lock
contention, a single error family per section 4.4. -/
inductive AppendError where
  | ioError
  | lockError
deriving DecidableEq, Repr

/-- The append-only journal handle (`append::Writer`), an external
collaborator: the ordered list of byte records of the backing file.
`failing` is a failure-injection flag: while it is set, a durable append
reports an I/O error and appends nothing, so that the contract of the edit
path under a failed append can be examined. -/
structure Writer where
  records : List (List Nat)
  failing : Bool
deriving DecidableEq, Repr

/-- `Writer::append_bytes`: durably append one record, or fail as a whole. -/
def Writer.append_bytes (w : Writer) (bytes : List Nat) : Except AppendError Writer :=
  if w.failing then .error .ioError
  else .ok { w with records := w.records ++ [bytes] }

/-- Big-endian 4-byte encoding of a `u32` protocol magic
(`serialize::utils::write_u32`). -/
def writeU32 (v : Nat) : List Nat :=
  [v / 16777216 % 256, v / 65536 % 256, v / 256 % 256, v % 256]

/-- Decoding of the fixed-width 4-byte protocol-magic header record
(`serialize::utils::read_u32`; the spec fixes the field at exactly four
bytes, section 6). -/
def readU32 : List Nat → Except AppendError Nat
  | [a, b, c, d] =>
    if a < 256 && b < 256 && c < 256 && d < 256 then
      .ok (((a * 256 + b) * 256 + c) * 256 + d)
    else .error .ioError
  | _ => .error .ioError

/-- The fixed magic token `b"TRANSACTION_V1"` as its ASCII bytes. -/
def MAGIC_TRANSACTION_V1 : List Nat :=
  [84, 82, 65, 78, 83, 65, 67, 84, 73, 79, 78, 95, 86, 49]

/-- Error type of the edit path (`StagingUpdateError`). -/
inductive StagingUpdateError where
  | AppendFile (e : AppendError)
  | TransactionIsInvalidState (e : TransactionError)
deriving DecidableEq, Repr

/-- Error type of `read_from_file` (`StagingTransactionParseError`). -/
inductive StagingTransactionParseError where
  | AppendFile (e : AppendError)
  | NoMagic
  | MissingProtocolMagic
  | InvalidMagic (bytes : List Nat)
  | Operation (e : ParsingOperationError)
  | TransactionIsInvalidState (e : TransactionError)
deriving DecidableEq, Repr

deriving instance DecidableEq for Except

/-- Result of a `&mut self` method: success, a recoverable error value, or
abrupt termination of the program (a Rust panic or failed assertion). -/
inductive UpdateResult where
  | ok
  | err (e : StagingUpdateError)
  | fatal (msg : String)
deriving DecidableEq, Repr

/-- Result of a constructor: the built value, a recoverable error value, or
abrupt termination of the program (a Rust panic or failed assertion). -/
inductive Outcome (ε α : Type) where
  | ok (a : α)
  | err (e : ε)
  | fatal (msg : String)
deriving DecidableEq, Repr

/-- The staging transaction aggregate root: identity, protocol magic,
append-ordered operation history, current transaction, and the
exclusively-owned journal handle. -/
structure StagingTransaction where
  id : Nat
  protocol_magic : Nat
  operations : List Operation
  transaction : Transaction
  writer : Writer
deriving DecidableEq, Repr

/-- `StagingTransaction::append` (the `edit` primitive underlying every
public mutator).  As in the source, `self.transaction.update_with(..)?`
runs first and mutates the in-memory transaction in place, then the record
is appended to the journal, then the operation is pushed to the history;
the returned pair keeps the post-call state even when a later step
failed. -/
def StagingTransaction.append (st : StagingTransaction) (op : Operation) :
    StagingTransaction × UpdateResult :=
  match st.transaction.update_with op with
  | .error e => (st, .err (.TransactionIsInvalidState e))
  | .ok tx' =>
    match (st.writer.append_bytes op.serialize) with
    | .error e => ({ st with transaction := tx' }, .err (.AppendFile e))
    | .ok w' =>
      ({ st with transaction := tx', writer := w', operations := st.operations ++ [op] }, .ok)

/-- `StagingTransaction::finalize`. -/
def StagingTransaction.finalize (st : StagingTransaction) : StagingTransaction × UpdateResult :=
  st.append .Finalize

/-- `StagingTransaction::add_signature`. -/
def StagingTransaction.add_signature (st : StagingTransaction) (w : TxInWitness) :
    StagingTransaction × UpdateResult :=
  st.append (.Signature w)

/-- `StagingTransaction::add_input`. -/
def StagingTransaction.add_input (st : StagingTransaction) (i : Input) :
    StagingTransaction × UpdateResult :=
  st.append (.AddInput i)

/-- `StagingTransaction::add_change`. -/
def StagingTransaction.add_change (st : StagingTransaction) (c : Change) :
    StagingTransaction × UpdateResult :=
  st.append (.AddChange c)

/-- `StagingTransaction::add_output`. -/
def StagingTransaction.add_output (st : StagingTransaction) (o : Output) :
    StagingTransaction × UpdateResult :=
  st.append (.AddOutput o)

/-- `StagingTransaction::remove_input`. -/
def StagingTransaction.remove_input (st : StagingTransaction) (p : TxoPointer) :
    StagingTransaction × UpdateResult :=
  st.append (.RemoveInput p)

/-- `StagingTransaction::remove_change`. -/
def StagingTransaction.remove_change (st : StagingTransaction) (a : ExtendedAddr) :
    StagingTransaction × UpdateResult :=
  st.append (.RemoveChange a)

/-- `StagingTransaction::remove_output`. -/
def StagingTransaction.remove_output (st : StagingTransaction) (index : Nat) :
    StagingTransaction × UpdateResult :=
  st.append (.RemoveOutput index)

/-- Apply a list of operations through the edit path, stopping at the
first failure and keeping the state reached so far. -/
def StagingTransaction.applyAll (st : StagingTransaction) :
    List Operation → StagingTransaction × UpdateResult
  | [] => (st, .ok)
  | op :: ops =>
    match st.append op with
    | (st', .ok) => st'.applyAll ops
    | (st', r) => (st', r)

/-- The replay loop of `read_from_file`: decode each record, push the
operation and apply it to the accumulating transaction; any decode or
validation failure aborts the whole open. -/
def readOps : List (List Nat) → List Operation → Transaction →
    Except StagingTransactionParseError (List Operation × Transaction)
  | [], acc, tx => .ok (acc, tx)
  | r :: rs, acc, tx =>
    match Operation.deserialize r with
    | .error e => .error (.Operation e)
    | .ok op =>
      match tx.update_with op with
      | .error e => .error (.TransactionIsInvalidState e)
      | .ok tx' => readOps rs (acc ++ [op]) tx'

/-- `StagingTransaction::read_from_file`: open the journal of the given
identity (its file content is the list of records), check the magic token,
read the protocol-magic header, then replay every following record in
order into a fresh transaction.  The reopened writer holds the same file
content. -/
def StagingTransaction.read_from_file (id : Nat) (records : List (List Nat)) :
    Except StagingTransactionParseError StagingTransaction :=
  match records with
  | [] => .error .NoMagic
  | magic_got :: rest =>
    if magic_got ≠ MAGIC_TRANSACTION_V1 then .error (.InvalidMagic magic_got)
    else
      match rest with
      | [] => .error .MissingProtocolMagic
      | pm_record :: op_records =>
        match readU32 pm_record with
        | .error e => .error (.AppendFile e)
        | .ok protocol_magic =>
          match readOps op_records [] Transaction.new with
          | .error e => .error e
          | .ok (operations, transaction) =>
            .ok { id := id, protocol_magic := protocol_magic,
                  operations := operations, transaction := transaction,
                  writer := { records := records, failing := false } }

/-- The condition of the assertion inside the `if path.is_file()` branch of
`StagingTransaction::new_with`: `assert!(!path.is_file(), ..)`, i.e. the
negation of the guard that was just taken. -/
def newWithAssertCond (file_exists : Bool) : Bool := !file_exists

/-- The fresh handle built by `new_with` once the journal file is created:
empty history, empty transaction, and a journal holding the magic token
followed by the 4-byte protocol-magic header. -/
def newWithOpen (protocol_magic id : Nat) : StagingTransaction :=
  { id := id, protocol_magic := protocol_magic, operations := [],
    transaction := Transaction.new,
    writer := { records := [MAGIC_TRANSACTION_V1, writeU32 protocol_magic],
                failing := false } }

/-- `StagingTransaction::new_with`: if the journal file of the identity
already exists, the source enters the `if path.is_file()` branch and runs
`assert!(!path.is_file(), "Staging transaction already exists")`, whose
condition is the negation of the guard; otherwise it locks the path,
writes the two header records and returns the fresh handle (the lock and
header writes of the substrate are taken as succeeding). -/
def StagingTransaction.new_with (protocol_magic id : Nat) (file_exists : Bool) :
    Outcome AppendError StagingTransaction :=
  if file_exists then
    if newWithAssertCond file_exists then .ok (newWithOpen protocol_magic id)
    else .fatal "Staging transaction already exists"
  else .ok (newWithOpen protocol_magic id)

/-- The loop body of `StagingTransaction::remove_outputs_for`: starting at
`index`, rescan the outputs; a matching output is removed through the
public `remove_output` edit (which shifts the tail down, so `index` is not
advanced), otherwise `index` advances.  The source asserts
`index < u32::max_value() as usize` each iteration, and indexing an
out-of-range position would terminate the program abruptly. -/
def StagingTransaction.removeLoop (st : StagingTransaction) (address : ExtendedAddr)
    (index : Nat) : StagingTransaction × UpdateResult :=
  if index = st.transaction.outputs.length then (st, .ok)
  else if 4294967295 ≤ index then
    (st, .fatal "There is clearly too many outputs in this staging transaction")
  else
    match ho : st.transaction.outputs[index]? with
    | none => (st, .fatal "index out of bounds")
    | some o =>
      if o.address = address then
        match hr : st.append (.RemoveOutput index) with
        | (st', .ok) => st'.removeLoop address index
        | (st', .err e) => (st', .err e)
        | (st', .fatal m) => (st', .fatal m)
      else st.removeLoop address (index + 1)
termination_by st.transaction.outputs.length - index
decreasing_by
  · obtain ⟨hidx, -⟩ := List.getElem?_eq_some.mp ho
    have hlen : st'.transaction.outputs.length + 1 = st.transaction.outputs.length := by
      simp only [StagingTransaction.append] at hr
      split at hr
      · simp at hr
      · rename_i tx' heq
        simp only [Writer.append_bytes] at hr
        split at hr
        · simp at hr
        · simp only [Prod.mk.injEq] at hr
          obtain ⟨hst, -⟩ := hr
          subst hst
          simp only [Transaction.update_with] at heq
          split at heq
          · simp at heq
          · simp only [Except.ok.injEq] at heq
            subst heq
            simpa using List.length_eraseIdx_add_one hidx
    omega
  · obtain ⟨hidx, -⟩ := List.getElem?_eq_some.mp ho
    omega

/-- `StagingTransaction::remove_outputs_for`: remove every output whose
address is the given one, rescanning from index 0. -/
def StagingTransaction.remove_outputs_for (st : StagingTransaction)
    (address : ExtendedAddr) : StagingTransaction × UpdateResult :=
  st.removeLoop address 0

/-- Lower-case hex digit. -/
def hexDigit (n : Nat) : Char :=
  if n < 10 then Char.ofNat (48 + n) else Char.ofNat (87 + n)

/-- Hex rendering of a byte string (`hex::encode`). -/
def hexEncode (bs : List Nat) : String :=
  String.mk (bs.foldr (fun b acc => hexDigit (b / 16) :: hexDigit (b % 16) :: acc) [])

/-- The snapshot interchange record (`Export`): identity, hex rendering of
the magic token, protocol magic and the materialized transaction; no
operation history. -/
structure Export where
  staging_id : Nat
  magic : String
  protocol_magic : Nat
  transaction : Transaction
deriving DecidableEq, Repr

/-- `StagingTransaction::export`: copy identity, protocol magic, the fixed
format label and the current transaction; the journal is not touched. -/
def StagingTransaction.exportSnapshot (st : StagingTransaction) : Export :=
  { staging_id := st.id, magic := hexEncode MAGIC_TRANSACTION_V1,
    protocol_magic := st.protocol_magic, transaction := st.transaction }

/-- `StagingTransaction::import` (named `importSnapshot` because `import`
is reserved in Lean): log the snapshot's magic field (never validated),
create a brand-new journal under the snapshot's identity via `new_with`,
then re-issue `AddInput` for each input, `AddOutput` for each output and
`Finalize` if the snapshot was finalized, each through the validated edit
path; `file_exists` tells whether a journal file for the snapshot's
identity already exists under the root directory. -/
def StagingTransaction.importSnapshot (ex : Export) (file_exists : Bool) :
    Outcome StagingUpdateError StagingTransaction :=
  match StagingTransaction.new_with ex.protocol_magic ex.staging_id file_exists with
  | .fatal m => .fatal m
  | .err e => .err (.AppendFile e)
  | .ok st0 =>
    match st0.applyAll (ex.transaction.inputs.map Operation.AddInput) with
    | (_, .err e) => .err e
    | (_, .fatal m) => .fatal m
    | (st1, .ok) =>
      match st1.applyAll (ex.transaction.outputs.map Operation.AddOutput) with
      | (_, .err e) => .err e
      | (_, .fatal m) => .fatal m
      | (st2, .ok) =>
        if ex.transaction.finalized then
          match st2.finalize with
          | (_, .err e) => .err e
          | (_, .fatal m) => .fatal m
          | (st3, .ok) => .ok st3
        else .ok st2

/-- The journal/history invariant: the backing file holds the magic token,
then the protocol-magic header record, then exactly one serialized record
per entry of the in-memory operation history, in the same order. -/
def JInv (st : StagingTransaction) : Prop :=
  st.writer.records =
    MAGIC_TRANSACTION_V1 :: writeU32 st.protocol_magic ::
      st.operations.map Operation.serialize

/-- A freshly created staging transaction whose journal substrate fails
every subsequent durable append (an injected I/O failure), used to examine
the edit path when the append fails after validation succeeded. -/
def failingFreshSt : StagingTransaction :=
  { id := 0, protocol_magic := 764824073, operations := [],
    transaction := Transaction.new,
    writer := { records := [MAGIC_TRANSACTION_V1, writeU32 764824073],
                failing := true } }

/-- A healthy staging transaction holding three outputs to address 1 and
one output to address 2 (the scenario of the specification, section 8). -/
def fourOutputsSt : StagingTransaction :=
  { id := 0, protocol_magic := 7,
    operations := [.AddOutput ⟨1, 1⟩, .AddOutput ⟨1, 2⟩, .AddOutput ⟨1, 3⟩, .AddOutput ⟨2, 4⟩],
    transaction := { inputs := [], outputs := [⟨1, 1⟩, ⟨1, 2⟩, ⟨1, 3⟩, ⟨2, 4⟩],
                     changes := [], finalized := false, witnesses := [] },
    writer := { records := [MAGIC_TRANSACTION_V1, writeU32 7, [2, 1, 1], [2, 1, 2], [2, 1, 3], [2, 2, 4]],
                failing := false } }

/-- A healthy staging transaction holding one input with outpoint 5 and
one change entry for address 3. -/
def oneInputSt : StagingTransaction :=
  { id := 0, protocol_magic := 7,
    operations := [.AddInput ⟨5, 7⟩, .AddChange ⟨3, 2⟩],
    transaction := { inputs := [⟨5, 7⟩], outputs := [], changes := [⟨3, 2⟩],
                     finalized := false, witnesses := [] },
    writer := { records := [MAGIC_TRANSACTION_V1, writeU32 7, [0, 5, 7], [4, 3, 2]],
                failing := false } }

/-- A healthy, already finalized staging transaction. -/
def finalizedSt : StagingTransaction :=
  { id := 0, protocol_magic := 7,
    operations := [.Finalize],
    transaction := { inputs := [], outputs := [], changes := [],
                     finalized := true, witnesses := [] },
    writer := { records := [MAGIC_TRANSACTION_V1, writeU32 7, [6]],
                failing := false } }

/-- A snapshot with two inputs (distinct outpoints), one output and the
finalized flag set (the import scenario of the specification, section 8). -/
def sampleExport : Export :=
  { staging_id := 7, magic := "aa", protocol_magic := 764824073,
    transaction := { inputs := [⟨1, 5⟩, ⟨2, 6⟩], outputs := [⟨3, 4⟩],
                     changes := [], finalized := true, witnesses := [] } }

/-- The staging transaction produced by importing `sampleExport` into an
empty root. -/
def sampleImported : StagingTransaction :=
  { id := 7, protocol_magic := 764824073,
    operations := [.AddInput ⟨1, 5⟩, .AddInput ⟨2, 6⟩, .AddOutput ⟨3, 4⟩, .Finalize],
    transaction := { inputs := [⟨1, 5⟩, ⟨2, 6⟩], outputs := [⟨3, 4⟩],
                     changes := [], finalized := true, witnesses := [] },
    writer := { records := [MAGIC_TRANSACTION_V1, writeU32 764824073,
                            [0, 1, 5], [0, 2, 6], [2, 3, 4], [6]],
                failing := false } }

/-- Unfolding equation of `removeLoop` with plain (non-dependent) matches,
convenient for rewriting and concrete evaluation. -/
theorem removeLoop_unfold (st : StagingTransaction) (address : ExtendedAddr) (index : Nat) :
    st.removeLoop address index =
      if index = st.transaction.outputs.length then (st, .ok)
      else if 4294967295 ≤ index then
        (st, .fatal "There is clearly too many outputs in this staging transaction")
      else
        match st.transaction.outputs[index]? with
        | none => (st, .fatal "index out of bounds")
        | some o =>
          if o.address = address then
            match st.append (.RemoveOutput index) with
            | (st', .ok) => st'.removeLoop address index
            | (st', .err e) => (st', .err e)
            | (st', .fatal m) => (st', .fatal m)
          else st.removeLoop address (index + 1) := by
  rw [StagingTransaction.removeLoop.eq_def]
  repeat' split
  all_goals simp_all

/-- Round-trip law of the operation codec: decoding an encoded operation
yields the operation back. -/
theorem Operation.serialize_deserialize (op : Operation) :
    Operation.deserialize op.serialize = .ok op := by
  cases op <;> rfl

/-- The codec only accepts canonical records: a record that decodes to an
operation is that operation's encoding. -/
theorem Operation.deserialize_ok (r : List Nat) (op : Operation)
    (h : Operation.deserialize r = .ok op) : r = op.serialize := by
  unfold Operation.deserialize at h
  split at h <;> first | (injection h with h; subst h; rfl) | cases h

/-- The 4-byte header encoding decodes to the protocol magic reduced
modulo `2 ^ 32`. -/
theorem readU32_writeU32 (v : Nat) : readU32 (writeU32 v) = .ok (v % 4294967296) := by
  have h1 : v / 16777216 % 256 < 256 := Nat.mod_lt _ (by norm_num)
  have h2 : v / 65536 % 256 < 256 := Nat.mod_lt _ (by norm_num)
  have h3 : v / 256 % 256 < 256 := Nat.mod_lt _ (by norm_num)
  have h4 : v % 256 < 256 := Nat.mod_lt _ (by norm_num)
  simp only [writeU32, readU32]
  rw [if_pos (by simp [h1, h2, h3, h4])]
  simp only [Except.ok.injEq]
  omega

/-- A record accepted by the 4-byte header decoder is the encoding of the
value it decodes to. -/
theorem readU32_ok_eq (r : List Nat) (v : Nat) (h : readU32 r = .ok v) : r = writeU32 v := by
  unfold readU32 at h
  split at h
  · rename_i a b c d
    split at h
    · rename_i hb
      simp only [Bool.and_eq_true, decide_eq_true_eq] at hb
      simp only [Except.ok.injEq] at h
      subst h
      simp only [writeU32, List.cons.injEq, and_true]
      omega
    · cases h
  · cases h

/-- A successful edit: the state machine accepted the operation, the
serialized record was appended to the journal, and the operation was
pushed to the history; identity, protocol magic and the failure flag of
the substrate are untouched. -/
theorem append_ok_spec (st : StagingTransaction) (op : Operation) (st' : StagingTransaction)
    (h : st.append op = (st', .ok)) :
    st.transaction.update_with op = .ok st'.transaction ∧
    st'.operations = st.operations ++ [op] ∧
    st'.writer.records = st.writer.records ++ [op.serialize] ∧
    st'.writer.failing = st.writer.failing ∧
    st'.id = st.id ∧ st'.protocol_magic = st.protocol_magic := by
  unfold StagingTransaction.append at h
  split at h
  · simp at h
  · rename_i tx' heq
    split at h
    · simp at h
    · rename_i w' heq2
      unfold Writer.append_bytes at heq2
      split at heq2
      · cases heq2
      · simp only [Except.ok.injEq] at heq2
        subst heq2
        simp only [Prod.mk.injEq] at h
        obtain ⟨h1, -⟩ := h
        subst h1
        simp [heq]

/-- An edit whose validation fails returns the validation error and leaves
the whole staging transaction exactly as it was. -/
theorem append_validation_error (st : StagingTransaction) (op : Operation)
    (e : TransactionError) (h : st.transaction.update_with op = .error e) :
    st.append op = (st, .err (.TransactionIsInvalidState e)) := by
  simp [StagingTransaction.append, h]

/-- Every edit, successful or not, preserves the journal/history
correspondence: a validation failure changes nothing, a journal failure
appends neither the record nor the history entry, and a success appends
both consistently. -/
theorem JInv_append (st : StagingTransaction) (op : Operation) (h : JInv st) :
    JInv (st.append op).1 := by
  unfold StagingTransaction.append
  split
  · exact h
  · rename_i tx' heq
    split
    · exact h
    · rename_i w' heq2
      unfold Writer.append_bytes at heq2
      split at heq2
      · cases heq2
      · simp only [Except.ok.injEq] at heq2
        subst heq2
        simp only [JInv] at h ⊢
        simp [h]

/-- A successful run of `applyAll` is exactly the pure replay of the
operation list, with the matching journal records and history appended. -/
theorem applyAll_ok_spec (ops : List Operation) (st st' : StagingTransaction)
    (h : st.applyAll ops = (st', .ok)) :
    st.transaction.applyOps ops = .ok st'.transaction ∧
    st'.operations = st.operations ++ ops ∧
    st'.writer.records = st.writer.records ++ ops.map Operation.serialize ∧
    st'.writer.failing = st.writer.failing ∧
    st'.id = st.id ∧ st'.protocol_magic = st.protocol_magic := by
  induction ops generalizing st with
  | nil =>
    unfold StagingTransaction.applyAll at h
    simp only [Prod.mk.injEq] at h
    obtain ⟨h1, -⟩ := h
    subst h1
    simp [Transaction.applyOps]
  | cons op ops ih =>
    unfold StagingTransaction.applyAll at h
    split at h
    · rename_i st1 heq
      obtain ⟨g1, g2, g3, g4, g5, g6⟩ := append_ok_spec st op st1 heq
      obtain ⟨i1, i2, i3, i4, i5, i6⟩ := ih st1 h
      refine ⟨?_, ?_, ?_, ?_, ?_, ?_⟩
      · simp only [Transaction.applyOps, g1]
        exact i1
      · rw [i2, g2]; simp
      · rw [i3, g3]; simp
      · rw [i4, g4]
      · rw [i5, g5]
      · rw [i6, g6]
    · simp_all

/-- A successful replay-loop run decodes exactly a list of canonical
records and applies it. -/
theorem readOps_ok_spec (rs : List (List Nat)) (acc : List Operation) (tx : Transaction)
    (ops : List Operation) (tx' : Transaction)
    (h : readOps rs acc tx = .ok (ops, tx')) :
    ∃ ops2, ops = acc ++ ops2 ∧ rs = ops2.map Operation.serialize ∧
      tx.applyOps ops2 = .ok tx' := by
  induction rs generalizing acc tx with
  | nil =>
    unfold readOps at h
    simp only [Except.ok.injEq, Prod.mk.injEq] at h
    obtain ⟨h1, h2⟩ := h
    exact ⟨[], by simp [h1], rfl, by simp [Transaction.applyOps, h2]⟩
  | cons r rs ih =>
    unfold readOps at h
    split at h
    · cases h
    · rename_i op heq
      split at h
      · cases h
      · rename_i tx1 heq2
        obtain ⟨ops2, h1, h2, h3⟩ := ih (acc ++ [op]) tx1 h
        refine ⟨op :: ops2, by simp [h1], ?_, ?_⟩
        · simp [h2, Operation.deserialize_ok r op heq]
        · simp only [Transaction.applyOps, heq2]
          exact h3

/-- The replay loop run on the canonical records of a successfully
replayable operation list accepts it and reproduces it. -/
theorem readOps_of_applyOps (ops : List Operation) (acc : List Operation) (tx tx' : Transaction)
    (h : tx.applyOps ops = .ok tx') :
    readOps (ops.map Operation.serialize) acc tx = .ok (acc ++ ops, tx') := by
  induction ops generalizing acc tx with
  | nil =>
    unfold Transaction.applyOps at h
    simp only [Except.ok.injEq] at h
    subst h
    simp [readOps]
  | cons op ops ih =>
    unfold Transaction.applyOps at h
    split at h
    · cases h
    · rename_i tx1 heq
      simp only [List.map_cons, readOps, Operation.serialize_deserialize, heq]
      have := ih (acc ++ [op]) tx1 h
      simpa using this

/-- `RemoveOutput` succeeds exactly when the transaction is not finalized
and the index is in range, and then erases the indexed output, shifting
the tail down. -/
theorem update_removeOutput_ok (tx : Transaction) (ix : Nat) (tx' : Transaction)
    (h : tx.update_with (.RemoveOutput ix) = .ok tx') :
    tx.finalized = false ∧ ix < tx.outputs.length ∧
    tx' = { tx with outputs := tx.outputs.eraseIdx ix } := by
  simp only [Transaction.update_with] at h
  split at h
  · cases h
  · rename_i hfin
    split at h
    · rename_i hix
      simp only [Except.ok.injEq] at h
      exact ⟨by simpa using hfin, hix, h.symm⟩
    · cases h

/-- `AddInput` succeeds exactly when the transaction is not finalized and
the outpoint is not already present, and then appends the input. -/
theorem update_addInput_ok (tx : Transaction) (i : Input) (tx' : Transaction)
    (h : tx.update_with (.AddInput i) = .ok tx') :
    tx.finalized = false ∧ i.ptr ∉ tx.inputs.map Input.ptr ∧
    tx' = { tx with inputs := tx.inputs ++ [i] } := by
  simp only [Transaction.update_with] at h
  split at h
  · cases h
  · rename_i hfin
    split at h
    · cases h
    · rename_i hany
      simp only [Except.ok.injEq] at h
      refine ⟨by simpa using hfin, ?_, h.symm⟩
      intro hmem
      obtain ⟨j, hj, he⟩ := List.mem_map.mp hmem
      exact hany (List.any_eq_true.mpr ⟨j, hj, by simp [he]⟩)

/-- Successfully replaying a list of `AddInput` commands appends exactly
those inputs, keeps the finalized flag down, and — starting from inputs
with pairwise distinct outpoints — forces the whole resulting outpoint
list, added inputs included, to be pairwise distinct. -/
theorem applyOps_addInputs_nodup (is : List Input) (tx tx' : Transaction)
    (h : tx.applyOps (is.map Operation.AddInput) = .ok tx')
    (hnd : (tx.inputs.map Input.ptr).Nodup) (hfin : tx.finalized = false) :
    ((tx.inputs ++ is).map Input.ptr).Nodup ∧ tx'.inputs = tx.inputs ++ is ∧
    tx'.finalized = false := by
  induction is generalizing tx with
  | nil =>
    simp only [List.map_nil, Transaction.applyOps, Except.ok.injEq] at h
    subst h
    simpa [hnd] using hfin
  | cons i is ih =>
    simp only [List.map_cons, Transaction.applyOps] at h
    split at h
    · cases h
    · rename_i tx1 heq
      obtain ⟨g1, g2, g3⟩ := update_addInput_ok tx i tx1 heq
      have hnd1 : (tx1.inputs.map Input.ptr).Nodup := by
        rw [g3]
        simp only [List.map_append, List.map_cons, List.map_nil]
        rw [List.nodup_append]
        refine ⟨hnd, List.nodup_singleton _, ?_⟩
        intro x hx hx2
        simp only [List.mem_singleton] at hx2
        subst hx2
        exact g2 hx
      have hfin1 : tx1.finalized = false := by
        rw [g3]
        exact hfin
      obtain ⟨j1, j2, j3⟩ := ih tx1 h hnd1 hfin1
      rw [g3] at j1 j2
      refine ⟨?_, ?_, j3⟩
      · simpa [List.append_assoc] using j1
      · simpa [List.append_assoc] using j2

/-- The rescanning removal loop preserves the journal/history
correspondence, whatever its outcome. -/
theorem JInv_removeLoop (st : StagingTransaction) (address : ExtendedAddr) (index : Nat) :
    JInv st → JInv (st.removeLoop address index).1 := by
  induction st, address, index using StagingTransaction.removeLoop.induct with
  | case1 st address =>
    intro h
    rw [removeLoop_unfold]
    simpa using h
  | case2 st address index h1 h2 =>
    intro h
    rw [removeLoop_unfold]
    simpa [if_neg h1, if_pos h2] using h
  | case3 st address index h1 h2 ho =>
    intro h
    rw [removeLoop_unfold]
    simpa [if_neg h1, if_neg h2, ho] using h
  | case4 st index h1 h2 o ho st' hr ih =>
    intro h
    rw [removeLoop_unfold]
    simp only [if_neg h1, if_neg h2, ho, hr]
    apply ih
    have h2 := JInv_append st (.RemoveOutput index) h
    rw [hr] at h2
    exact h2
  | case5 st index h1 h2 o ho st' e hr =>
    intro h
    rw [removeLoop_unfold]
    simp only [if_neg h1, if_neg h2, ho, hr]
    have h2 := JInv_append st (.RemoveOutput index) h
    rw [hr] at h2
    exact h2
  | case6 st index h1 h2 o ho st' m hr =>
    intro h
    rw [removeLoop_unfold]
    simp only [if_neg h1, if_neg h2, ho, hr]
    have h2 := JInv_append st (.RemoveOutput index) h
    rw [hr] at h2
    exact h2
  | case7 st address index h1 h2 o ho hne ih =>
    intro h
    rw [removeLoop_unfold]
    simp only [if_neg h1, if_neg h2, ho, if_neg hne]
    exact ih h

/-- A successful run of the removal loop from position `index`, on a state
whose first `index` outputs do not carry the scanned address, leaves
exactly the outputs whose address differs, in their original relative
order. -/
theorem removeLoop_ok_filter (st : StagingTransaction) (address : ExtendedAddr) (index : Nat) :
    (∀ o ∈ st.transaction.outputs.take index, o.address ≠ address) →
    (st.removeLoop address index).2 = .ok →
    (st.removeLoop address index).1.transaction.outputs =
      st.transaction.outputs.take index ++
        (st.transaction.outputs.drop index).filter (fun o => o.address != address) := by
  induction st, address, index using StagingTransaction.removeLoop.induct with
  | case1 st address =>
    intro hpre hok
    rw [removeLoop_unfold]
    simp
  | case2 st address index h1 h2 =>
    intro hpre hok
    rw [removeLoop_unfold] at hok
    simp [if_neg h1, if_pos h2] at hok
  | case3 st address index h1 h2 ho =>
    intro hpre hok
    rw [removeLoop_unfold] at hok
    simp [if_neg h1, if_neg h2, ho] at hok
  | case4 st index h1 h2 o ho st' hr ih =>
    intro hpre hok
    obtain ⟨hix, hget⟩ := List.getElem?_eq_some.mp ho
    have hstep : st.removeLoop o.address index = st'.removeLoop o.address index := by
      rw [removeLoop_unfold]
      simp [if_neg h1, if_neg h2, ho, hr]
    rw [hstep] at hok ⊢
    obtain ⟨hfin, -, htx⟩ :=
      update_removeOutput_ok st.transaction index st'.transaction (append_ok_spec st _ st' hr).1
    have hout : st'.transaction.outputs =
        st.transaction.outputs.take index ++ st.transaction.outputs.drop (index + 1) := by
      rw [htx]
      exact List.eraseIdx_eq_take_drop_succ _ _
    have hlen : (st.transaction.outputs.take index).length = index := by
      rw [List.length_take]
      omega
    have htake : st'.transaction.outputs.take index = st.transaction.outputs.take index := by
      rw [hout, List.take_left' hlen]
    have hdrop : st'.transaction.outputs.drop index = st.transaction.outputs.drop (index + 1) := by
      rw [hout, List.drop_left' hlen]
    have hpre' : ∀ o2 ∈ st'.transaction.outputs.take index, o2.address ≠ o.address := by
      rw [htake]
      exact hpre
    rw [ih hpre' hok, htake, hdrop, List.drop_eq_getElem_cons hix, hget]
    simp [List.filter_cons]
  | case5 st index h1 h2 o ho st' e hr =>
    intro hpre hok
    rw [removeLoop_unfold] at hok
    simp [if_neg h1, if_neg h2, ho, hr] at hok
  | case6 st index h1 h2 o ho st' m hr =>
    intro hpre hok
    rw [removeLoop_unfold] at hok
    simp [if_neg h1, if_neg h2, ho, hr] at hok
  | case7 st address index h1 h2 o ho hne ih =>
    intro hpre hok
    obtain ⟨hix, hget⟩ := List.getElem?_eq_some.mp ho
    have hstep : st.removeLoop address index = st.removeLoop address (index + 1) := by
      rw [removeLoop_unfold]
      simp [if_neg h1, if_neg h2, ho, if_neg hne]
    rw [hstep] at hok ⊢
    have htake1 : st.transaction.outputs.take (index + 1) =
        st.transaction.outputs.take index ++ [o] := by
      rw [List.take_succ, ho]
      rfl
    have hpre' : ∀ o2 ∈ st.transaction.outputs.take (index + 1), o2.address ≠ address := by
      rw [htake1]
      intro o2 hmem
      rcases List.mem_append.mp hmem with hmem | hmem
      · exact hpre o2 hmem
      · simp only [List.mem_singleton] at hmem
        subst hmem
        exact hne
    rw [ih hpre' hok, htake1, List.drop_eq_getElem_cons hix, hget]
    have hkeep : (o.address != address) = true := by
      simpa using hne
    simp [List.filter_cons, hkeep]

/-- Opening the canonical journal of a successfully replayable operation
list succeeds and reproduces the list and its replayed state. -/
theorem read_of_journal (i pm : Nat) (ops : List Operation) (txF : Transaction)
    (happly : Transaction.applyOps Transaction.new ops = .ok txF) :
    StagingTransaction.read_from_file i
        (MAGIC_TRANSACTION_V1 :: writeU32 pm :: ops.map Operation.serialize) =
      .ok { id := i, protocol_magic := pm % 4294967296, operations := ops,
            transaction := txF,
            writer := { records := MAGIC_TRANSACTION_V1 :: writeU32 pm ::
                          ops.map Operation.serialize, failing := false } } := by
  simp [StagingTransaction.read_from_file, readU32_writeU32 pm,
    readOps_of_applyOps ops [] Transaction.new txF happly]

/-- C1: the claim states that the edit path durably appends to the journal
before updating the in-memory transaction, and that a failed append leaves
memory rolled back or the handle unusable.  The source does the opposite
(and contradicts its own doc comment): at the concrete failing input below
— a fresh staging transaction whose journal append fails — `add_input`
returns the I/O error, yet the in-memory transaction already contains the
input while the journal is unchanged, and nothing marks the handle
unusable. -/
theorem C1_append_failure_diverges :
    (failingFreshSt.add_input ⟨0, 1⟩).2 = .err (.AppendFile .ioError) ∧
    (failingFreshSt.add_input ⟨0, 1⟩).1.transaction.inputs = [⟨0, 1⟩] ∧
    (failingFreshSt.add_input ⟨0, 1⟩).1.transaction ≠ failingFreshSt.transaction ∧
    (failingFreshSt.add_input ⟨0, 1⟩).1.writer.records = failingFreshSt.writer.records ∧
    (failingFreshSt.add_input ⟨0, 1⟩).1.operations = failingFreshSt.operations := by
  decide

/-- C2: an operation whose validation against the current transaction
state fails makes the mutator return the validation error and leaves the
in-memory transaction, the operation history and the journal's records
(hence their count) unchanged. -/
theorem C2_validation_failure_no_mutation (st : StagingTransaction) (op : Operation)
    (e : TransactionError) (h : st.transaction.update_with op = .error e) :
    (st.append op).2 = .err (.TransactionIsInvalidState e) ∧
    (st.append op).1.transaction = st.transaction ∧
    (st.append op).1.operations = st.operations ∧
    (st.append op).1.writer.records = st.writer.records := by
  rw [append_validation_error st op e h]
  exact ⟨rfl, rfl, rfl, rfl⟩

/-- Witness for C2: removing a missing input from a fresh staging
transaction fails with `notFound` and changes nothing. -/
theorem C2_validation_failure_no_mutation_witness :
    ((newWithOpen 764824073 0).append (.RemoveInput 0)).2 =
        .err (.TransactionIsInvalidState .notFound) ∧
    ((newWithOpen 764824073 0).append (.RemoveInput 0)).1.transaction =
        (newWithOpen 764824073 0).transaction ∧
    ((newWithOpen 764824073 0).append (.RemoveInput 0)).1.operations =
        (newWithOpen 764824073 0).operations ∧
    ((newWithOpen 764824073 0).append (.RemoveInput 0)).1.writer.records =
        (newWithOpen 764824073 0).writer.records :=
  C2_validation_failure_no_mutation (newWithOpen 764824073 0) (.RemoveInput 0) .notFound
    (by decide)

/-- C3: for every sequence of operations applied successfully through the
edit path on a freshly created staging transaction, reopening the journal
by identity yields a transaction structurally equal to the in-memory one
and an operation history equal to the applied sequence in order. -/
theorem C3_replay_determinism (pm i : Nat) (ops : List Operation) (st0 stF : StagingTransaction)
    (h0 : StagingTransaction.new_with pm i false = .ok st0)
    (hF : st0.applyAll ops = (stF, .ok)) :
    ∃ st', StagingTransaction.read_from_file i stF.writer.records = .ok st' ∧
      st'.transaction = stF.transaction ∧ st'.operations = ops := by
  have hst0 : st0 = newWithOpen pm i := by
    simpa [StagingTransaction.new_with] using h0.symm
  obtain ⟨a1, a2, a3, a4, a5, a6⟩ := applyAll_ok_spec ops st0 stF hF
  have hrec : stF.writer.records =
      MAGIC_TRANSACTION_V1 :: writeU32 pm :: ops.map Operation.serialize := by
    rw [a3, hst0]
    rfl
  have happ : Transaction.applyOps Transaction.new ops = .ok stF.transaction := by
    rw [hst0] at a1
    exact a1
  rw [hrec]
  exact ⟨_, read_of_journal i pm ops stF.transaction happ, rfl, rfl⟩

/-- Witness for C3: the scenario of the specification (create, add one
input, add one output, finalize, reopen). -/
theorem C3_replay_determinism_witness :
    ∃ st', StagingTransaction.read_from_file 0
        (((newWithOpen 764824073 0).applyAll
            [.AddInput ⟨1, 100⟩, .AddOutput ⟨2, 90⟩, .Finalize]).1.writer.records) = .ok st' ∧
      st'.transaction = ((newWithOpen 764824073 0).applyAll
            [.AddInput ⟨1, 100⟩, .AddOutput ⟨2, 90⟩, .Finalize]).1.transaction ∧
      st'.operations = [.AddInput ⟨1, 100⟩, .AddOutput ⟨2, 90⟩, .Finalize] :=
  C3_replay_determinism 764824073 0 [.AddInput ⟨1, 100⟩, .AddOutput ⟨2, 90⟩, .Finalize]
    (newWithOpen 764824073 0)
    (((newWithOpen 764824073 0).applyAll
        [.AddInput ⟨1, 100⟩, .AddOutput ⟨2, 90⟩, .Finalize]).1)
    (by decide) (by decide)

/-- C4: a successful import re-issues exactly one `AddInput` per snapshot
input, one `AddOutput` per snapshot output and one `Finalize` iff the
snapshot is finalized, through the validated edit path, so the history has
exactly that many records, independent of anything else in the snapshot;
and success forces the snapshot's input outpoints to be pairwise distinct
(a snapshot with duplicate outpoints cannot import successfully). -/
theorem C4_import_reissues (ex : Export) (st : StagingTransaction)
    (h : StagingTransaction.importSnapshot ex false = .ok st) :
    st.operations = ex.transaction.inputs.map Operation.AddInput ++
        ex.transaction.outputs.map Operation.AddOutput ++
        (if ex.transaction.finalized then [Operation.Finalize] else []) ∧
    st.operations.length = ex.transaction.inputs.length + ex.transaction.outputs.length +
        (if ex.transaction.finalized then 1 else 0) ∧
    (ex.transaction.inputs.map Input.ptr).Nodup := by
  unfold StagingTransaction.importSnapshot at h
  split at h
  · cases h
  · cases h
  · rename_i st0 hnw
    have hst0 : st0 = newWithOpen ex.protocol_magic ex.staging_id := by
      simpa [StagingTransaction.new_with] using hnw.symm
    subst hst0
    split at h
    · cases h
    · cases h
    · rename_i st1 hins
      split at h
      · cases h
      · cases h
      · rename_i st2 houts
        obtain ⟨b1, b2, b3, b4, b5, b6⟩ := applyAll_ok_spec _ _ st1 hins
        obtain ⟨c1, c2, c3, c4, c5, c6⟩ := applyAll_ok_spec _ _ st2 houts
        obtain ⟨hnodup, -, -⟩ :=
          applyOps_addInputs_nodup ex.transaction.inputs _ _ b1 (by simp [newWithOpen, Transaction.new]) rfl
        have hops2 : st2.operations = ex.transaction.inputs.map Operation.AddInput ++
            ex.transaction.outputs.map Operation.AddOutput := by
          rw [c2, b2]
          simp [newWithOpen]
        have hnodup2 : (ex.transaction.inputs.map Input.ptr).Nodup := by
          simpa [Transaction.new] using hnodup
        split at h
        · rename_i hfin
          split at h
          · cases h
          · cases h
          · rename_i st3 hfin3
            simp only [Outcome.ok.injEq] at h
            subst h
            obtain ⟨d1, d2, d3, d4, d5, d6⟩ :=
              append_ok_spec st2 Operation.Finalize st3 hfin3
            refine ⟨?_, ?_, hnodup2⟩
            · rw [d2, hops2, hfin]
              simp
            · rw [d2, hops2, hfin]
              simp
              omega
        · rename_i hfin
          simp only [Outcome.ok.injEq] at h
          subst h
          have hfin2 : ex.transaction.finalized = false := by
            simpa using hfin
          refine ⟨?_, ?_, hnodup2⟩
          · rw [hops2, hfin2]
            simp
          · rw [hops2, hfin2]
            simp

/-- Witness for C4: importing the specification's snapshot (two inputs,
one output, finalized) yields a history of exactly four records. -/
theorem C4_import_reissues_witness :
    sampleImported.operations = sampleExport.transaction.inputs.map Operation.AddInput ++
        sampleExport.transaction.outputs.map Operation.AddOutput ++
        (if sampleExport.transaction.finalized then [Operation.Finalize] else []) ∧
    sampleImported.operations.length = sampleExport.transaction.inputs.length +
        sampleExport.transaction.outputs.length +
        (if sampleExport.transaction.finalized then 1 else 0) ∧
    (sampleExport.transaction.inputs.map Input.ptr).Nodup :=
  C4_import_reissues sampleExport sampleImported (by decide)

/-- C5: opening an empty journal fails with `NoMagic`; a journal whose
first record differs from the magic token fails with `InvalidMagic`
carrying exactly the offending bytes; a journal with a valid magic but no
protocol-magic record fails with `MissingProtocolMagic`; in each case the
whole open is the error, with no partial result. -/
theorem C5_magic_validation (i : Nat) (bs : List Nat) (rest : List (List Nat))
    (h : bs ≠ MAGIC_TRANSACTION_V1) :
    StagingTransaction.read_from_file i [] = .error .NoMagic ∧
    StagingTransaction.read_from_file i (bs :: rest) = .error (.InvalidMagic bs) ∧
    StagingTransaction.read_from_file i [MAGIC_TRANSACTION_V1] =
      .error .MissingProtocolMagic := by
  refine ⟨rfl, ?_, ?_⟩
  · simp [StagingTransaction.read_from_file, h]
  · simp [StagingTransaction.read_from_file]

/-- Witness for C5 at a concrete wrong first record. -/
theorem C5_magic_validation_witness :
    StagingTransaction.read_from_file 0 [] = .error .NoMagic ∧
    StagingTransaction.read_from_file 0 [[0]] = .error (.InvalidMagic [0]) ∧
    StagingTransaction.read_from_file 0 [MAGIC_TRANSACTION_V1] =
      .error .MissingProtocolMagic :=
  C5_magic_validation 0 [0] [] (by decide)

/-- C6: a successful `remove_outputs_for` leaves exactly the outputs whose
address differs from the given one, in their original relative order —
removals that shift the tail neither skip nor double-process entries. -/
theorem C6_remove_outputs_for_filters (st : StagingTransaction) (address : ExtendedAddr)
    (hok : (st.remove_outputs_for address).2 = .ok) :
    (st.remove_outputs_for address).1.transaction.outputs =
      st.transaction.outputs.filter (fun o => o.address != address) := by
  unfold StagingTransaction.remove_outputs_for at hok ⊢
  simpa using removeLoop_ok_filter st address 0 (by simp) hok

/-- Witness for C6: the scenario of the specification, outputs
`[O1, O2, O3]` to address 1 and `O4` to address 2; removing for address 1
leaves `[O4]`. -/
theorem C6_remove_outputs_for_filters_witness :
    (fourOutputsSt.remove_outputs_for 1).2 = .ok ∧
    (fourOutputsSt.remove_outputs_for 1).1.transaction.outputs = [⟨2, 4⟩] := by
  have hok : (fourOutputsSt.remove_outputs_for 1).2 = .ok := by
    simp [StagingTransaction.remove_outputs_for, removeLoop_unfold, StagingTransaction.append,
      Transaction.update_with, Writer.append_bytes, Operation.serialize, fourOutputsSt,
      List.eraseIdx]
  refine ⟨hok, ?_⟩
  rw [C6_remove_outputs_for_filters fourOutputsSt 1 hok]
  decide

/-- C7: every public mutator reports a caller-triggered precondition
violation (double-spend, missing removal target, out-of-range index,
already finalized, structural edit after finalize) as a recoverable error
value, not as abrupt termination — despite the source doc comments that
claim a panic for these cases. -/
theorem C7_mutators_error_not_abort :
    (∀ (st : StagingTransaction) (i : Input), st.transaction.finalized = false →
        i.ptr ∈ st.transaction.inputs.map Input.ptr →
        (st.add_input i).2 = .err (.TransactionIsInvalidState .doubleSpend)) ∧
    (∀ (st : StagingTransaction) (p : TxoPointer), st.transaction.finalized = false →
        p ∉ st.transaction.inputs.map Input.ptr →
        (st.remove_input p).2 = .err (.TransactionIsInvalidState .notFound)) ∧
    (∀ (st : StagingTransaction) (ix : Nat), st.transaction.finalized = false →
        st.transaction.outputs.length ≤ ix →
        (st.remove_output ix).2 = .err (.TransactionIsInvalidState .indexOutOfRange)) ∧
    (∀ (st : StagingTransaction) (a : ExtendedAddr), st.transaction.finalized = false →
        a ∉ st.transaction.changes.map Change.address →
        (st.remove_change a).2 = .err (.TransactionIsInvalidState .notFound)) ∧
    (∀ st : StagingTransaction, st.transaction.finalized = true →
        (st.finalize).2 = .err (.TransactionIsInvalidState .alreadyFinalized)) ∧
    (∀ (st : StagingTransaction) (o : Output), st.transaction.finalized = true →
        (st.add_output o).2 = .err (.TransactionIsInvalidState .finalizedImmutable)) := by
  refine ⟨?_, ?_, ?_, ?_, ?_, ?_⟩
  · intro st i hfin hmem
    have hany : (st.transaction.inputs.any fun j => j.ptr == i.ptr) = true := by
      obtain ⟨j, hj, he⟩ := List.mem_map.mp hmem
      exact List.any_eq_true.mpr ⟨j, hj, by simp [he]⟩
    have hupd : st.transaction.update_with (.AddInput i) = .error .doubleSpend := by
      simp [Transaction.update_with, hfin, hany]
    simp [StagingTransaction.add_input, append_validation_error st _ _ hupd]
  · intro st p hfin hmem
    have hany : (st.transaction.inputs.any fun j => j.ptr == p) = false := by
      simp only [List.any_eq_false]
      intro j hj
      simp only [beq_iff_eq]
      intro he
      exact hmem (List.mem_map.mpr ⟨j, hj, he⟩)
    have hupd : st.transaction.update_with (.RemoveInput p) = .error .notFound := by
      simp [Transaction.update_with, hfin, hany]
    simp [StagingTransaction.remove_input, append_validation_error st _ _ hupd]
  · intro st ix hfin hix
    have hupd : st.transaction.update_with (.RemoveOutput ix) = .error .indexOutOfRange := by
      simp [Transaction.update_with, hfin, Nat.not_lt.mpr hix]
    simp [StagingTransaction.remove_output, append_validation_error st _ _ hupd]
  · intro st a hfin hmem
    have hany : (st.transaction.changes.any fun d => d.address == a) = false := by
      simp only [List.any_eq_false]
      intro d hd
      simp only [beq_iff_eq]
      intro he
      exact hmem (List.mem_map.mpr ⟨d, hd, he⟩)
    have hupd : st.transaction.update_with (.RemoveChange a) = .error .notFound := by
      simp [Transaction.update_with, hfin, hany]
    simp [StagingTransaction.remove_change, append_validation_error st _ _ hupd]
  · intro st hfin
    have hupd : st.transaction.update_with .Finalize = .error .alreadyFinalized := by
      simp [Transaction.update_with, hfin]
    simp [StagingTransaction.finalize, append_validation_error st _ _ hupd]
  · intro st o hfin
    have hupd : st.transaction.update_with (.AddOutput o) = .error .finalizedImmutable := by
      simp [Transaction.update_with, hfin]
    simp [StagingTransaction.add_output, append_validation_error st _ _ hupd]

/-- Witness for C7: each listed precondition violation at a concrete
state, each returning the expected recoverable error value. -/
theorem C7_mutators_error_not_abort_witness :
    (oneInputSt.add_input ⟨5, 9⟩).2 = .err (.TransactionIsInvalidState .doubleSpend) ∧
    (oneInputSt.remove_input 9).2 = .err (.TransactionIsInvalidState .notFound) ∧
    (oneInputSt.remove_output 0).2 = .err (.TransactionIsInvalidState .indexOutOfRange) ∧
    (oneInputSt.remove_change 9).2 = .err (.TransactionIsInvalidState .notFound) ∧
    (finalizedSt.finalize).2 = .err (.TransactionIsInvalidState .alreadyFinalized) ∧
    (finalizedSt.add_output ⟨1, 1⟩).2 = .err (.TransactionIsInvalidState .finalizedImmutable) :=
  ⟨C7_mutators_error_not_abort.1 oneInputSt ⟨5, 9⟩ (by decide) (by decide),
   C7_mutators_error_not_abort.2.1 oneInputSt 9 (by decide) (by decide),
   C7_mutators_error_not_abort.2.2.1 oneInputSt 0 (by decide) (by decide),
   C7_mutators_error_not_abort.2.2.2.1 oneInputSt 9 (by decide) (by decide),
   C7_mutators_error_not_abort.2.2.2.2.1 finalizedSt (by decide),
   C7_mutators_error_not_abort.2.2.2.2.2 finalizedSt ⟨1, 1⟩ (by decide)⟩

/-- C8: creating a staging transaction whose journal file already exists —
reachable from the public import with a snapshot whose identity's file
exists — runs the assertion inside the `if path.is_file()` branch of
`new_with`; the assertion's condition is the negation of the guard, so it
always fails there, and the program terminates abruptly instead of
returning an error value. -/
theorem C8_new_with_asserts_on_existing (pm i : Nat) (ex : Export) :
    StagingTransaction.new_with pm i true = .fatal "Staging transaction already exists" ∧
    newWithAssertCond true = false ∧
    StagingTransaction.importSnapshot ex true =
      .fatal "Staging transaction already exists" :=
  ⟨rfl, rfl, rfl⟩

/-- C9: invariant of every live handle — the journal holds the magic
token, the protocol-magic header and exactly one serialized record per
history entry, in order; it is established by `new_with` (which also
yields an empty history and an empty transaction) and by `read_from_file`,
and preserved by the edit path and by `remove_outputs_for` whether they
succeed or fail. -/
theorem C9_journal_matches_history :
    (∀ pm i st, StagingTransaction.new_with pm i false = .ok st →
      JInv st ∧ st.operations = [] ∧ st.transaction = Transaction.new ∧
      st.writer.records = [MAGIC_TRANSACTION_V1, writeU32 pm]) ∧
    (∀ i records st, StagingTransaction.read_from_file i records = .ok st → JInv st) ∧
    (∀ st op, JInv st → JInv (st.append op).1) ∧
    (∀ st address, JInv st → JInv (st.remove_outputs_for address).1) := by
  refine ⟨?_, ?_, ?_, ?_⟩
  · intro pm i st h
    have hst : st = newWithOpen pm i := by
      simpa [StagingTransaction.new_with] using h.symm
    subst hst
    exact ⟨rfl, rfl, rfl, rfl⟩
  · intro i records st h
    unfold StagingTransaction.read_from_file at h
    split at h
    · cases h
    · rename_i magic_got rest
      split at h
      · cases h
      · rename_i hmag
        split at h
        · cases h
        · rename_i pm_record op_records
          split at h
          · cases h
          · rename_i pm hu32
            split at h
            · cases h
            · rename_i pr ops tx hops
              simp only [Except.ok.injEq] at h
              subst h
              obtain ⟨ops2, ho1, ho2, -⟩ :=
                readOps_ok_spec op_records [] Transaction.new ops tx hops
              have hm : magic_got = MAGIC_TRANSACTION_V1 := by
                simpa using hmag
              simp only [JInv]
              rw [hm, readU32_ok_eq pm_record pm hu32, ho2]
              simp [ho1]
  · intro st op h
    exact JInv_append st op h
  · intro st address h
    unfold StagingTransaction.remove_outputs_for
    exact JInv_removeLoop st address 0 h

/-- Witness for C9: the invariant at a fresh handle, at a reopened
journal, after an edit and after a bulk removal. -/
theorem C9_journal_matches_history_witness :
    (JInv (newWithOpen 764824073 0) ∧ (newWithOpen 764824073 0).operations = [] ∧
      (newWithOpen 764824073 0).transaction = Transaction.new ∧
      (newWithOpen 764824073 0).writer.records = [MAGIC_TRANSACTION_V1, writeU32 764824073]) ∧
    JInv sampleImported ∧
    JInv (oneInputSt.append .Finalize).1 ∧
    JInv (fourOutputsSt.remove_outputs_for 1).1 :=
  ⟨C9_journal_matches_history.1 764824073 0 (newWithOpen 764824073 0) rfl,
   C9_journal_matches_history.2.1 7 sampleImported.writer.records sampleImported (by decide),
   C9_journal_matches_history.2.2.1 oneInputSt .Finalize (by unfold JInv; decide),
   C9_journal_matches_history.2.2.2 fourOutputsSt 1 (by unfold JInv; decide)⟩

/-- C10: the snapshot's magic (format-label) field does not influence the
importing path — two snapshots differing only in that field are imported
identically, whatever the state of the root directory. -/
theorem C10_import_ignores_magic (i pm : Nat) (m1 m2 : String) (tx : Transaction) (fe : Bool) :
    StagingTransaction.importSnapshot
        { staging_id := i, magic := m1, protocol_magic := pm, transaction := tx } fe =
      StagingTransaction.importSnapshot
        { staging_id := i, magic := m2, protocol_magic := pm, transaction := tx } fe := rfl


end Staging
